import Mathlib

/-!
Shallow embedding of the A2D2 paired camera/lidar dataset engine
(`src/data/a2d2_dataset.py`) together with the spec-modelled crop
helper (`random_crop` of `a2d2_utils`, absent from the sources).

File-system discovery, pickle loading and image decoding are I/O; they
enter the model as explicit parameters (the sorted list of discovered
lidar paths, the two exclusion lists, a decode oracle).  Python floats
are modelled by rationals, numpy arrays by lists.
-/

namespace A2D2

/-- The two pickled exclusion collections loaded at construction
(`missing_keys_files` and `missing_point_clouds`). -/
structure Exclusions where
  missingKeys : List String
  missingPointClouds : List String

/-- Membership test performed inside `_create_data_pairs`:
`lidar_path in self.missing_keys_files or lidar_path in self.missing_point_clouds`. -/
def isExcluded (e : Exclusions) (p : String) : Bool :=
  e.missingKeys.contains p || e.missingPointClouds.contains p

/-- Splitting of a character list at every `'/'`, the semantics of
Python's `str.split("/")` (empty segments are kept). -/
def splitSlash : List Char → List (List Char)
  | [] => [[]]
  | c :: rest =>
    match splitSlash rest with
    | [] => [[c]]
    | s :: ss => if c = '/' then [] :: s :: ss else (c :: s) :: ss

/-- Path segments of a path string, as produced by `path.split("/")`. -/
def pathSegs (p : String) : List String :=
  (splitSlash p.data).map String.mk

/-- Sequence name of a lidar path: `lidar_path.split("/")[-4]`
(the fourth path segment from the end). -/
def seqName (p : String) : String :=
  let parts := pathSegs p
  parts.getD (parts.length - 4) ""

/-- Append a surviving path to its sequence's bucket, preserving the
first-occurrence key order of the Python dict `scene_dict`. -/
def insertGroup (k : String) (p : String) :
    List (String × List String) → List (String × List String)
  | [] => [(k, [p])]
  | (k', ps) :: rest =>
    if k' = k then (k', ps ++ [p]) :: rest else (k', ps) :: insertGroup k p rest

/-- The `scene_dict` built by the first loop of `_create_data_pairs`:
drop excluded paths, group the rest by sequence name in encounter order. -/
def sceneDict (e : Exclusions) (lidarPaths : List String) :
    List (String × List String) :=
  lidarPaths.foldl
    (fun d p => if isExcluded e p then d else insertGroup (seqName p) p d) []

/-- Per-sequence chronological split of `_create_data_pairs`:
`num_val_samples = int(num_samples * val_ratio)`,
train = first `num_samples - num_val_samples` paths, val = the rest. -/
def seqSplit (rv : ℚ) (g : List String) : List String × List String :=
  let n := g.length
  let numVal := Int.toNat ⌊(n : ℚ) * rv⌋
  let numTrain := n - numVal
  (g.take numTrain, g.drop numTrain)

/-- Image file name derived from a lidar path:
`lidar_path.split("/")[-1].replace("lidar", "camera").replace(".npz", ".png")`. -/
def imageFileName (p : String) : String :=
  (((pathSegs p).getLastD "").replace "lidar" "camera").replace ".npz" ".png"

/-- Image path paired with a lidar path:
`os.path.join(root_path, seq_name, "camera/cam_front_center", image_file_name)`. -/
def imagePath (root seq p : String) : String :=
  root ++ "/" ++ seq ++ "/camera/cam_front_center/" ++ imageFileName p

/-- The body of `_create_data_pairs`: build `scene_dict`, split every
sequence chronologically, pair each lidar path with its image path and
concatenate the per-sequence lists in group order. -/
def createDataPairs (root : String) (e : Exclusions) (rv : ℚ)
    (lidarPaths : List String) :
    List (String × String) × List (String × String) :=
  let d := sceneDict e lidarPaths
  let pair := fun (seq p : String) => (p, imagePath root seq p)
  (((d.map (fun g => ((seqSplit rv g.2).1).map (pair g.1))).flatten),
   ((d.map (fun g => ((seqSplit rv g.2).2).map (pair g.1))).flatten))

/-- Clamping of `val_ratio` in `__init__`: values outside `[0, 0.5]` are
replaced by `max(0, min(val_ratio, 0.5))` and a warning is printed
(second component `true`); in-range values pass through unwarned. -/
def clampValFrac (rv : ℚ) : ℚ × Bool :=
  if rv < 0 ∨ rv > 1/2 then (max 0 (min rv (1/2)), true) else (rv, false)

/-- Construction-time failure taxonomy relevant to the `split` check. -/
inductive ConfigError where
  | invalidSplit : String → ConfigError
deriving DecidableEq

/-- Partition selection in `__init__`: `split == "train"` picks the train
pairs, `split == "val"` the val pairs, anything else raises. -/
def selectSplit (split : String) (trainPairs valPairs : List (String × String)) :
    Except ConfigError (List (String × String)) :=
  if split = "train" then .ok trainPairs
  else if split = "val" then .ok valPairs
  else .error (.invalidSplit split)

/-- One decoded lidar point as assembled by the `np.hstack` in
`_getitem_unsafe`: columns 0-3 are x, y, z, reflectance, columns 4-5 are
the pixel-projection row and column. -/
structure Pt where
  x : ℚ
  y : ℚ
  z : ℚ
  refl : ℚ
  row : ℚ
  col : ℚ
deriving DecidableEq

/-- The four geometry channels kept by `point_cloud[:, :4]`. -/
structure Geom where
  x : ℚ
  y : ℚ
  z : ℚ
  refl : ℚ
deriving DecidableEq

/-- Projection of a point to its first four columns. -/
def ptGeom (p : Pt) : Geom := ⟨p.x, p.y, p.z, p.refl⟩

/-- An image reduced to its pixel-grid dimensions (height, width); pixel
contents never influence the control flow being verified. -/
structure ImageDims where
  height : ℕ
  width : ℕ
deriving DecidableEq

/-- Modelled from the spec: the axis-aligned crop window of `random_crop`
(`a2d2_utils` is absent from the sources), "an axis-aligned rectangle
(top, left, height, width) ... entirely within the source image bounds". -/
structure CropWindow where
  top : ℕ
  left : ℕ
  height : ℕ
  width : ℕ
deriving DecidableEq

/-- The window covering the whole image. -/
def fullWindow (img : ImageDims) : CropWindow :=
  ⟨0, 0, img.height, img.width⟩

/-- Modelled from the spec: the point-retention predicate of
`random_crop`, "`top ≤ row < top+target_h` and `left ≤ col < left+target_w`". -/
def inWindow (w : CropWindow) (p : Pt) : Bool :=
  decide ((w.top : ℚ) ≤ p.row) && decide (p.row < (w.top : ℚ) + w.height) &&
  decide ((w.left : ℚ) ≤ p.col) && decide (p.col < (w.left : ℚ) + w.width)

/-- Modelled from the spec: the coordinate re-basing of `random_crop`,
"re-express its pixel coordinate relative to `(top, left)`; geometry
(x, y, z, reflectance) is untouched". -/
def rebase (w : CropWindow) (p : Pt) : Pt :=
  { p with row := p.row - (w.top : ℚ), col := p.col - (w.left : ℚ) }

/-- Modelled from the spec: the point half of `random_crop` — retain
exactly the points whose projection falls inside the window, re-based to
the window origin. -/
def cropPoints (w : CropWindow) (pts : List Pt) : List Pt :=
  (pts.filter (fun p => inWindow w p)).map (rebase w)

/-- Modelled from the spec: the image half of `random_crop` — the cropped
image has the window's dimensions. -/
def cropImage (w : CropWindow) (_img : ImageDims) : ImageDims :=
  ⟨w.height, w.width⟩

/-- Model of `cv2.resize(img, (224, 224))`: output dimensions only. -/
def resizeTo224 (_img : ImageDims) : ImageDims := ⟨224, 224⟩

/-- The body of `_getitem_unsafe` after decoding and undistortion, with
the randomly drawn crop window made explicit: crop if `crop_size` is set,
resize to 224×224, and keep only columns 0-3 of the point array. -/
def getitemRaw (cropSize : Option (ℕ × ℕ)) (w : CropWindow)
    (img : ImageDims) (pts : List Pt) : ImageDims × List Geom :=
  let cropped :=
    match cropSize with
    | some _ => (cropImage w img, cropPoints w pts)
    | none => (img, pts)
  (resizeTo224 cropped.1, cropped.2.map ptGeom)

/-- Result of `__getitem__`: a sample, or the `RuntimeError` raised after
the retry loop, carrying the reported attempt count and the reported
"starting" index (the loop variable `idx` at raise time). -/
inductive GetResult where
  | ok : ImageDims → List Geom → GetResult
  | exhausted : ℕ → ℕ → GetResult
deriving DecidableEq

/-- The constant `max_attempts = 100` of `__getitem__`. -/
def maxAttempts : ℕ := 100

/-- The retry loop of `__getitem__`, structurally recursive on the fuel
`max_attempts - attempt`: decode the current index, return on a non-empty
point cloud, otherwise advance to `(idx + 1) % n` and retry; when the
fuel is gone, raise with `max_attempts` and the current `idx`. -/
def getItemAux (decode : ℕ → ImageDims × List Geom) (n : ℕ) :
    ℕ → ℕ → GetResult
  | idx, 0 => .exhausted maxAttempts idx
  | idx, fuel + 1 =>
    let s := decode idx
    if 0 < s.2.length then .ok s.1 s.2
    else getItemAux decode n ((idx + 1) % n) fuel

/-- Entry point `__getitem__` for a partition of size `n`, with the per-index
decode → undistort → crop pipeline abstracted as `decode`. -/
def getItem (decode : ℕ → ImageDims × List Geom) (n idx : ℕ) : GetResult :=
  getItemAux decode n idx maxAttempts

/-- Number of decode/undistort/crop cycles the retry loop performs. -/
def decodeCount (decode : ℕ → ImageDims × List Geom) (n : ℕ) :
    ℕ → ℕ → ℕ
  | _, 0 => 0
  | idx, fuel + 1 =>
    if 0 < (decode idx).2.length then 1
    else 1 + decodeCount decode n ((idx + 1) % n) fuel

/-- Concatenation of all bucket contents of a scene dictionary, in
dictionary order. -/
def groupVals (d : List (String × List String)) : List String :=
  (d.map Prod.snd).flatten

theorem groupVals_insertGroup (k p : String)
    (d : List (String × List String)) :
    (groupVals (insertGroup k p d)).Perm (groupVals d ++ [p]) := by
  induction d with
  | nil => simp [groupVals, insertGroup]
  | cons q rest ih =>
    obtain ⟨k', ps⟩ := q
    by_cases hk : k' = k
    · have hins : insertGroup k p ((k', ps) :: rest) =
          (k', ps ++ [p]) :: rest := by
        simp [insertGroup, hk]
      rw [hins]
      simp only [groupVals, List.map_cons, List.flatten_cons]
      rw [List.append_assoc, List.append_assoc]
      exact List.Perm.append_left ps List.perm_append_comm
    · have hins : insertGroup k p ((k', ps) :: rest) =
          (k', ps) :: insertGroup k p rest := by
        simp [insertGroup, hk]
      rw [hins]
      simp only [groupVals, List.map_cons, List.flatten_cons]
      rw [List.append_assoc]
      exact List.Perm.append_left ps ih

theorem groupVals_foldl (e : Exclusions) (paths : List String) :
    ∀ d : List (String × List String),
      (groupVals (paths.foldl
        (fun d p => if isExcluded e p then d else insertGroup (seqName p) p d)
        d)).Perm
      (groupVals d ++ paths.filter (fun p => !isExcluded e p)) := by
  induction paths with
  | nil => intro d; simp
  | cons p rest ih =>
    intro d
    simp only [List.foldl_cons, List.filter_cons]
    by_cases hex : isExcluded e p
    · simpa [hex] using ih d
    · have h1 := ih (insertGroup (seqName p) p d)
      have h2 : (groupVals (insertGroup (seqName p) p d) ++
          rest.filter (fun q => !isExcluded e q)).Perm
          ((groupVals d ++ [p]) ++ rest.filter (fun q => !isExcluded e q)) :=
        List.Perm.append_right _ (groupVals_insertGroup _ _ _)
      have h3 := h1.trans h2
      simpa [hex, List.append_assoc] using h3

/-- The multiset of paths stored in `scene_dict` is exactly the
exclusion-filtered discovery list. -/
theorem sceneDict_perm_filter (e : Exclusions) (paths : List String) :
    (groupVals (sceneDict e paths)).Perm
      (paths.filter (fun p => !isExcluded e p)) := by
  simpa [groupVals] using groupVals_foldl e paths []

theorem grouped_insertGroup (k p : String) (hp : seqName p = k)
    (d : List (String × List String))
    (hd : ∀ q ∈ d, ∀ x ∈ q.2, seqName x = q.1) :
    ∀ q ∈ insertGroup k p d, ∀ x ∈ q.2, seqName x = q.1 := by
  induction d with
  | nil =>
    intro q hq x hx
    simp only [insertGroup, List.mem_singleton] at hq
    subst hq
    simp only [List.mem_singleton] at hx
    subst hx; exact hp
  | cons a rest ih =>
    obtain ⟨k', ps⟩ := a
    intro q hq x hx
    by_cases hk : k' = k
    · have hins : insertGroup k p ((k', ps) :: rest) =
          (k', ps ++ [p]) :: rest := by
        simp [insertGroup, hk]
      rw [hins] at hq
      rcases List.mem_cons.mp hq with h | h
      · subst h
        rcases List.mem_append.mp hx with h' | h'
        · exact hd (k', ps) (List.mem_cons_self _ _) x h'
        · simp only [List.mem_singleton] at h'
          subst h'
          simpa [hk] using hp
      · exact hd q (List.mem_cons_of_mem _ h) x hx
    · have hins : insertGroup k p ((k', ps) :: rest) =
          (k', ps) :: insertGroup k p rest := by
        simp [insertGroup, hk]
      rw [hins] at hq
      rcases List.mem_cons.mp hq with h | h
      · subst h
        exact hd (k', ps) (List.mem_cons_self _ _) x hx
      · exact ih (fun q hq => hd q (List.mem_cons_of_mem _ hq)) q h x hx

/-- Every bucket of `scene_dict` is keyed by the sequence name of each
of its members. -/
theorem sceneDict_grouped (e : Exclusions) (paths : List String) :
    ∀ q ∈ sceneDict e paths, ∀ x ∈ q.2, seqName x = q.1 := by
  suffices h : ∀ d : List (String × List String),
      (∀ q ∈ d, ∀ x ∈ q.2, seqName x = q.1) →
      ∀ q ∈ (paths.foldl
        (fun d p => if isExcluded e p then d else insertGroup (seqName p) p d)
        d), ∀ x ∈ q.2, seqName x = q.1 by
    exact h [] (by simp)
  induction paths with
  | nil => intro d hd; simpa using hd
  | cons p rest ih =>
    intro d hd
    simp only [List.foldl_cons]
    by_cases hex : isExcluded e p
    · simpa [hex] using ih d hd
    · simpa [hex] using ih _ (grouped_insertGroup (seqName p) p rfl d hd)

theorem seqSplit_append (rv : ℚ) (g : List String) :
    (seqSplit rv g).1 ++ (seqSplit rv g).2 = g :=
  List.take_append_drop _ _

theorem numVal_le (rv : ℚ) (_h0 : 0 ≤ rv) (h1 : rv ≤ 1/2) (n : ℕ) :
    Int.toNat ⌊(n : ℚ) * rv⌋ ≤ n := by
  rw [Int.toNat_le]
  have h2 : (n : ℚ) * rv ≤ (n : ℚ) :=
    mul_le_of_le_one_right (by positivity) (by linarith)
  calc ⌊(n : ℚ) * rv⌋ ≤ ⌊(n : ℚ)⌋ := Int.floor_le_floor h2
    _ = n := Int.floor_natCast n

theorem seqSplit_lengths (rv : ℚ) (g : List String)
    (h0 : 0 ≤ rv) (h1 : rv ≤ 1/2) :
    ((seqSplit rv g).2).length = Int.toNat ⌊(g.length : ℚ) * rv⌋ ∧
    ((seqSplit rv g).1).length =
      g.length - Int.toNat ⌊(g.length : ℚ) * rv⌋ := by
  have hv := numVal_le rv h0 h1 g.length
  constructor
  · simp only [seqSplit, List.length_drop]
    omega
  · simp only [seqSplit, List.length_take]
    omega

theorem flatten_map_append_perm {α β : Type} (f h : α → List β)
    (d : List α) :
    ((d.map f).flatten ++ (d.map h).flatten).Perm
      ((d.map (fun a => f a ++ h a)).flatten) := by
  induction d with
  | nil => simp
  | cons a rest ih =>
    simp only [List.map_cons, List.flatten_cons]
    rw [List.append_assoc, List.append_assoc]
    apply List.Perm.append_left
    exact (List.perm_append_comm_assoc _ _ _).trans
      (List.Perm.append_left (h a) ih)

/-- C6: construction with any `split` other than "train" or "val" (for
example "test") fails with a configuration error naming that value,
while "train" selects the train partition and "val" the val
partition. -/
theorem split_selection (s : String) (tp vp : List (String × String)) :
    (s ≠ "train" → s ≠ "val" →
      selectSplit s tp vp = .error (.invalidSplit s))
    ∧ selectSplit "test" tp vp = .error (.invalidSplit "test")
    ∧ selectSplit "train" tp vp = .ok tp
    ∧ selectSplit "val" tp vp = .ok vp := by
  refine ⟨?_, ?_, ?_, ?_⟩
  · intro h1 h2
    simp [selectSplit, h1, h2]
  · simp [selectSplit]
  · simp [selectSplit]
  · simp [selectSplit]

/-- Witness for C6 at the concrete invalid split value "test". -/
theorem split_selection_example :
    selectSplit "test" [] [] = .error (.invalidSplit "test") :=
  (split_selection "test" [] []).1 (by decide) (by decide)

/-- C7: a `val_ratio` below 0 is clamped to 0 and one above 1/2 to 1/2,
each with a recorded warning; an in-range value is used unchanged and
unwarned; the value used for partitioning always lies in [0, 1/2]. -/
theorem val_frac_clamping (rv : ℚ) :
    (rv < 0 → clampValFrac rv = (0, true))
    ∧ (1/2 < rv → clampValFrac rv = (1/2, true))
    ∧ (0 ≤ rv → rv ≤ 1/2 → clampValFrac rv = (rv, false))
    ∧ 0 ≤ (clampValFrac rv).1 ∧ (clampValFrac rv).1 ≤ 1/2 := by
  have hlow : rv < 0 → clampValFrac rv = (0, true) := by
    intro h
    have hmin : min rv (1/2 : ℚ) = rv := min_eq_left (by linarith)
    have hmax : max (0 : ℚ) rv = 0 := max_eq_left (by linarith)
    unfold clampValFrac
    rw [if_pos (Or.inl h), hmin, hmax]
  have hhigh : 1/2 < rv → clampValFrac rv = (1/2, true) := by
    intro h
    have hmin : min rv (1/2 : ℚ) = 1/2 := min_eq_right (by linarith)
    have hmax : max (0 : ℚ) (1/2 : ℚ) = 1/2 := max_eq_right (by norm_num)
    unfold clampValFrac
    rw [if_pos (Or.inr h), hmin, hmax]
  have hin : 0 ≤ rv → rv ≤ 1/2 → clampValFrac rv = (rv, false) := by
    intro h0 h1
    have hcond : ¬(rv < 0 ∨ rv > 1/2) := by
      push_neg
      exact ⟨h0, h1⟩
    unfold clampValFrac
    rw [if_neg hcond]
  refine ⟨hlow, hhigh, hin, ?_, ?_⟩ <;>
    rcases lt_or_le rv 0 with h | h
  · rw [hlow h]
  · rcases le_or_lt rv (1/2) with h' | h'
    · rw [hin h h']
      exact h
    · rw [hhigh h']; norm_num
  · rw [hlow h]; norm_num
  · rcases le_or_lt rv (1/2) with h' | h'
    · rw [hin h h']
      exact h'
    · rw [hhigh h']

/-- Witness for C7 at the concrete out-of-range input `val_ratio = -1`. -/
theorem val_frac_clamping_example : clampValFrac (-1) = (0, true) :=
  (val_frac_clamping (-1)).1 (by norm_num)

/-- C10: a sequence whose floor(n * val_ratio) is zero — in particular
when val_ratio = 0 or n * val_ratio < 1 — contributes all its records to
the train partition and none to the val partition. -/
theorem small_sequence_all_train (rv : ℚ) (g : List String) (h0 : 0 ≤ rv) :
    (Int.toNat ⌊(g.length : ℚ) * rv⌋ = 0 → seqSplit rv g = (g, []))
    ∧ (rv = 0 → seqSplit rv g = (g, []))
    ∧ ((g.length : ℚ) * rv < 1 → seqSplit rv g = (g, [])) := by
  have hbase : Int.toNat ⌊(g.length : ℚ) * rv⌋ = 0 → seqSplit rv g = (g, []) := by
    intro h
    simp [seqSplit, h, List.take_length, List.drop_length]
  refine ⟨hbase, ?_, ?_⟩
  · intro h
    apply hbase
    simp [h]
  · intro h
    apply hbase
    have hnn : (0 : ℚ) ≤ (g.length : ℚ) * rv := by positivity
    have : ⌊(g.length : ℚ) * rv⌋ = 0 :=
      Int.floor_eq_zero_iff.mpr ⟨hnn, h⟩
    simp [this]

/-- Witness for C10 at `val_ratio = 0` and a one-record sequence. -/
theorem small_sequence_all_train_example : seqSplit 0 ["a"] = (["a"], []) :=
  (small_sequence_all_train 0 ["a"] le_rfl).2.1 rfl

/-- C4 counterexample: with a 1×1 image, the full-image crop window and a
single point whose projection row equals the image height, the filtered
point count is strictly below the input point count, refuting the
unconditional equality clause of the claim. -/
theorem crop_full_window_counterexample :
    ¬ ((cropPoints (fullWindow ⟨1, 1⟩) [⟨0,0,0,0,1,0⟩]).length
        = ([(⟨0,0,0,0,1,0⟩ : Pt)]).length) := by
  have h : cropPoints (fullWindow ⟨1, 1⟩) [⟨0,0,0,0,1,0⟩] = [] := by
    simp [cropPoints, inWindow, fullWindow, List.filter]
  rw [h]
  decide

/-- C4 as amended: the crop-and-filter step never returns more points
than it receives, and it returns exactly the input count when the crop
window is the full image and every point's projection lies within the
image bounds. -/
theorem crop_point_count_le (w : CropWindow) (img : ImageDims)
    (pts : List Pt) :
    (cropPoints w pts).length ≤ pts.length
    ∧ (w = fullWindow img →
        (∀ p ∈ pts, 0 ≤ p.row ∧ p.row < (img.height : ℚ) ∧
          0 ≤ p.col ∧ p.col < (img.width : ℚ)) →
        (cropPoints w pts).length = pts.length) := by
  constructor
  · calc (cropPoints w pts).length
        = ((pts.filter (fun p => inWindow w p)).map (rebase w)).length := rfl
      _ = (pts.filter (fun p => inWindow w p)).length := List.length_map ..
      _ ≤ pts.length := List.length_filter_le ..
  · intro hw hin
    subst hw
    have hall : pts.filter (fun p => inWindow (fullWindow img) p) = pts := by
      apply List.filter_eq_self.mpr
      intro p hp
      rcases hin p hp with ⟨h1, h2, h3, h4⟩
      simp [inWindow, fullWindow]
      exact ⟨⟨⟨h1, by simpa using h2⟩, h3⟩, by simpa using h4⟩
    simp [cropPoints, hall]

/-- Witness for the amended C4: a full-image window over a 2×2 image
keeps the single in-bounds point. -/
theorem crop_point_count_le_example :
    (cropPoints (fullWindow ⟨2, 2⟩) [⟨5,6,7,8,0,1⟩]).length
      = ([(⟨5,6,7,8,0,1⟩ : Pt)]).length := by
  apply (crop_point_count_le (fullWindow ⟨2, 2⟩) ⟨2, 2⟩ _).2 rfl
  intro p hp
  simp only [List.mem_singleton] at hp
  subst hp
  norm_num

/-- C9: the per-sample output is a fixed 224×224 processed image together
with the surviving points reduced to exactly their four geometry channels
(x, y, z, reflectance); the pixel-projection (row, col) coordinates used
for crop filtering do not appear in the returned point array. -/
theorem sample_shape (cs : ℕ × ℕ) (w : CropWindow) (img : ImageDims)
    (pts : List Pt) :
    (getitemRaw (some cs) w img pts).2 =
      (pts.filter (fun p => inWindow w p)).map ptGeom
    ∧ (getitemRaw none w img pts).2 = pts.map ptGeom
    ∧ (∀ c : Option (ℕ × ℕ), (getitemRaw c w img pts).1 = ⟨224, 224⟩)
    ∧ (∀ (p : Pt) (a b : ℚ),
        ptGeom { p with row := a, col := b } = ptGeom p) := by
  refine ⟨?_, rfl, ?_, fun p a b => rfl⟩
  · show (cropPoints w pts).map ptGeom = _
    rw [cropPoints, List.map_map]
    rfl
  · intro c
    cases c <;> rfl

theorem getItemAux_ok_pos (decode : ℕ → ImageDims × List Geom) (n : ℕ) :
    ∀ fuel idx img pc,
      getItemAux decode n idx fuel = .ok img pc → 0 < pc.length := by
  intro fuel
  induction fuel with
  | zero => intro idx img pc h; simp [getItemAux] at h
  | succ fuel ih =>
    intro idx img pc h
    by_cases hpos : 0 < (decode idx).2.length
    · simp only [getItemAux, if_pos hpos] at h
      obtain ⟨-, h2⟩ := GetResult.ok.inj h
      rw [← h2]
      exact hpos
    · simp only [getItemAux, if_neg hpos] at h
      exact ih _ _ _ h

theorem getItemAux_exhausted_count (decode : ℕ → ImageDims × List Geom)
    (n : ℕ) :
    ∀ fuel idx a i,
      getItemAux decode n idx fuel = .exhausted a i →
      a = maxAttempts ∧ decodeCount decode n idx fuel = fuel := by
  intro fuel
  induction fuel with
  | zero =>
    intro idx a i h
    simp only [getItemAux] at h
    obtain ⟨h1, -⟩ := GetResult.exhausted.inj h
    exact ⟨h1.symm, rfl⟩
  | succ fuel ih =>
    intro idx a i h
    by_cases hpos : 0 < (decode idx).2.length
    · simp only [getItemAux, if_pos hpos] at h
      exact absurd h (by simp)
    · simp only [getItemAux, if_neg hpos] at h
      obtain ⟨h1, h2⟩ := ih _ _ _ h
      refine ⟨h1, ?_⟩
      simp only [decodeCount, if_neg hpos, h2]
      omega

/-- C1: for every index of a non-empty active partition, `__getitem__`
either returns a sample whose point count is positive, or raises after
exactly `max_attempts = 100` decode/undistort/crop cycles, advancing the
current index to `(idx + 1) % n` after each empty result; it never
returns an empty sample. -/
theorem getitem_nonempty_or_exhausted (decode : ℕ → ImageDims × List Geom)
    (n idx : ℕ) (_hn : 0 < n) (_hidx : idx < n) :
    (∀ img pc, getItem decode n idx = .ok img pc → 0 < pc.length)
    ∧ (∀ a i, getItem decode n idx = .exhausted a i →
        a = maxAttempts ∧ decodeCount decode n idx maxAttempts = maxAttempts)
    ∧ ((∃ img pc, getItem decode n idx = .ok img pc)
        ∨ (∃ i, getItem decode n idx = .exhausted maxAttempts i))
    ∧ (∀ j fuel, (decode j).2.length = 0 →
        getItemAux decode n j (fuel + 1) =
          getItemAux decode n ((j + 1) % n) fuel) := by
  refine ⟨?_, ?_, ?_, ?_⟩
  · intro img pc h
    exact getItemAux_ok_pos decode n maxAttempts idx img pc h
  · intro a i h
    exact getItemAux_exhausted_count decode n maxAttempts idx a i h
  · cases h : getItem decode n idx with
    | ok img pc => exact Or.inl ⟨img, pc, rfl⟩
    | exhausted a i =>
      have := (getItemAux_exhausted_count decode n maxAttempts idx a i h).1
      subst this
      exact Or.inr ⟨i, rfl⟩
  · intro j fuel hempty
    simp only [getItemAux, hempty]
    rfl

/-- Witness for C1: with a one-record partition whose decode returns a
single point, `__getitem__` terminates in one of the two contract
states. -/
theorem getitem_nonempty_or_exhausted_example :
    (∃ img pc,
      getItem (fun _ => (⟨224, 224⟩, [⟨0,0,0,0⟩])) 1 0 = .ok img pc)
    ∨ (∃ i,
      getItem (fun _ => (⟨224, 224⟩, [⟨0,0,0,0⟩])) 1 0 =
        .exhausted maxAttempts i) :=
  (getitem_nonempty_or_exhausted (fun _ => (⟨224, 224⟩, [⟨0,0,0,0⟩])) 1 0
    (by decide) (by decide)).2.2.1

set_option maxRecDepth 10000 in
/-- C5 evaluation at the failing input: a partition of size 3 whose
records all decode to empty point clouds, requested index 0.  The raised
error reports attempt count 100 but index `(0 + 100) % 3 = 1`, not the
originally requested index 0. -/
theorem exhausted_reports_shifted_index :
    getItem (fun _ => (⟨224, 224⟩, [])) 3 0 = .exhausted 100 1
    ∧ (1 : ℕ) ≠ 0 := by
  refine ⟨by decide, by decide⟩

/-- C2: for every input record set (no duplicate paths) and every
`val_ratio` in [0, 1/2], the train and val partitions are disjoint, their
union as a multiset (hence as a set) is exactly the exclusion-filtered
record set, and within each sequence of n surviving records the val
partition receives exactly floor(n * val_ratio) records and the train
partition the remaining n - floor(n * val_ratio). -/
theorem create_data_pairs_partition (root : String) (e : Exclusions)
    (rv : ℚ) (paths : List String)
    (h0 : 0 ≤ rv) (h1 : rv ≤ 1/2) (hnd : paths.Nodup) :
    (((createDataPairs root e rv paths).1.map Prod.fst ++
      (createDataPairs root e rv paths).2.map Prod.fst).Perm
        (paths.filter (fun p => !isExcluded e p)))
    ∧ (∀ x, (x ∈ (createDataPairs root e rv paths).1.map Prod.fst ∨
             x ∈ (createDataPairs root e rv paths).2.map Prod.fst) ↔
            x ∈ paths.filter (fun p => !isExcluded e p))
    ∧ (∀ x, x ∈ (createDataPairs root e rv paths).1.map Prod.fst →
            x ∉ (createDataPairs root e rv paths).2.map Prod.fst)
    ∧ (∀ g ∈ sceneDict e paths,
        ((seqSplit rv g.2).2).length = Int.toNat ⌊(g.2.length : ℚ) * rv⌋ ∧
        ((seqSplit rv g.2).1).length =
          g.2.length - Int.toNat ⌊(g.2.length : ℚ) * rv⌋) := by
  have htp : (createDataPairs root e rv paths).1.map Prod.fst =
      ((sceneDict e paths).map (fun g => (seqSplit rv g.2).1)).flatten := by
    simp only [createDataPairs, List.map_flatten, List.map_map]
    exact congrArg List.flatten (List.map_congr_left fun g _ => by
      show List.map Prod.fst
        (List.map (fun p => (p, imagePath root g.1 p)) (seqSplit rv g.2).1) =
        (seqSplit rv g.2).1
      rw [List.map_map]
      exact (List.map_congr_left fun p _ => rfl).trans (List.map_id _))
  have hvp : (createDataPairs root e rv paths).2.map Prod.fst =
      ((sceneDict e paths).map (fun g => (seqSplit rv g.2).2)).flatten := by
    simp only [createDataPairs, List.map_flatten, List.map_map]
    exact congrArg List.flatten (List.map_congr_left fun g _ => by
      show List.map Prod.fst
        (List.map (fun p => (p, imagePath root g.1 p)) (seqSplit rv g.2).2) =
        (seqSplit rv g.2).2
      rw [List.map_map]
      exact (List.map_congr_left fun p _ => rfl).trans (List.map_id _))
  have h3 : ((sceneDict e paths).map
      (fun g : String × List String =>
        (seqSplit rv g.2).1 ++ (seqSplit rv g.2).2)) =
      (sceneDict e paths).map Prod.snd :=
    List.map_congr_left fun g _ => seqSplit_append rv g.2
  have hperm : ((createDataPairs root e rv paths).1.map Prod.fst ++
      (createDataPairs root e rv paths).2.map Prod.fst).Perm
        (paths.filter (fun p => !isExcluded e p)) := by
    rw [htp, hvp]
    refine (flatten_map_append_perm _ _ _).trans ?_
    rw [h3]
    exact sceneDict_perm_filter e paths
  refine ⟨hperm, ?_, ?_, ?_⟩
  · intro x
    rw [← List.mem_append]
    exact hperm.mem_iff
  · have hnodup : ((createDataPairs root e rv paths).1.map Prod.fst ++
        (createDataPairs root e rv paths).2.map Prod.fst).Nodup :=
      (hperm.nodup_iff).mpr (hnd.filter _)
    intro x hx1 hx2
    exact (List.nodup_append.mp hnodup).2.2 hx1 hx2
  · intro g _
    exact seqSplit_lengths rv g.2 h0 h1

/-- Witness for C2 with one surviving record and `val_ratio = 0`. -/
theorem create_data_pairs_partition_example :
    ((createDataPairs "r" ⟨[], []⟩ 0 ["s/lidar/cfc/a.npz"]).1.map Prod.fst ++
     (createDataPairs "r" ⟨[], []⟩ 0 ["s/lidar/cfc/a.npz"]).2.map Prod.fst).Perm
      (["s/lidar/cfc/a.npz"].filter (fun p => !isExcluded ⟨[], []⟩ p)) :=
  (create_data_pairs_partition "r" ⟨[], []⟩ 0 ["s/lidar/cfc/a.npz"]
    (by norm_num) (by norm_num) (by simp)).1

/-- C3: within a sequence, every record of the train part occurs at a
strictly earlier discovery-order position than every record of the val
part; and a sequence of 10 records with `val_ratio = 1/5` splits into the
first 8 (train) and the last 2 (val). -/
theorem train_precedes_val (rv : ℚ) (g : List String) (p q : String)
    (hp : p ∈ (seqSplit rv g).1) (hq : q ∈ (seqSplit rv g).2) :
    (∃ (i j : ℕ) (hi : i < g.length) (hj : j < g.length),
        i < j ∧ g.get ⟨i, hi⟩ = p ∧ g.get ⟨j, hj⟩ = q)
    ∧ seqSplit (1/5)
        ["r01","r02","r03","r04","r05","r06","r07","r08","r09","r10"] =
      (["r01","r02","r03","r04","r05","r06","r07","r08"],
       ["r09","r10"]) := by
  constructor
  · obtain ⟨i, hi, hip⟩ := List.mem_iff_getElem.mp hp
    obtain ⟨j, hj, hjq⟩ := List.mem_iff_getElem.mp hq
    simp only [seqSplit, List.length_take, List.length_drop] at hi hj
    have hik : i < g.length - Int.toNat ⌊(g.length : ℚ) * rv⌋ ∧
        i < g.length := lt_min_iff.mp hi
    set k := g.length - Int.toNat ⌊(g.length : ℚ) * rv⌋ with hk
    refine ⟨i, k + j, hik.2, by omega, by omega, ?_, ?_⟩
    · rw [List.get_eq_getElem]
      rw [← hip]
      exact (List.getElem_take ..).symm
    · rw [List.get_eq_getElem]
      rw [← hjq]
      exact (List.getElem_drop ..).symm
  · have h : Int.toNat ⌊((["r01","r02","r03","r04","r05","r06","r07",
        "r08","r09","r10"] : List String).length : ℚ) * (1/5)⌋ = 2 := by
      norm_num; rfl
    simp only [seqSplit, h]
    decide

/-- Witness for C3: the first train record precedes the first val record
in the 10-record scenario. -/
theorem train_precedes_val_example :
    ∃ (i j : ℕ)
      (hi : i < (["r01","r02","r03","r04","r05","r06","r07","r08","r09",
        "r10"] : List String).length)
      (hj : j < (["r01","r02","r03","r04","r05","r06","r07","r08","r09",
        "r10"] : List String).length),
      i < j ∧
      (["r01","r02","r03","r04","r05","r06","r07","r08","r09","r10"] :
        List String).get ⟨i, hi⟩ = "r01" ∧
      (["r01","r02","r03","r04","r05","r06","r07","r08","r09","r10"] :
        List String).get ⟨j, hj⟩ = "r09" := by
  have h : Int.toNat ⌊((["r01","r02","r03","r04","r05","r06","r07",
      "r08","r09","r10"] : List String).length : ℚ) * (1/5)⌋ = 2 := by
    norm_num; rfl
  have hs : seqSplit (1/5)
      ["r01","r02","r03","r04","r05","r06","r07","r08","r09","r10"] =
      (["r01","r02","r03","r04","r05","r06","r07","r08"],
       ["r09","r10"]) := by
    simp only [seqSplit, h]
    decide
  exact (train_precedes_val (1/5)
    ["r01","r02","r03","r04","r05","r06","r07","r08","r09","r10"]
    "r01" "r09" (by rw [hs]; decide) (by rw [hs]; decide)).1

/-- C8: a discovered record survives into the scene dictionary exactly
when its path is in neither exclusion set; every surviving record is
grouped under its sequence name; and the sequence name is the fourth
path segment from the end whenever the path has at least four
segments. -/
theorem exclusion_and_grouping (e : Exclusions) (paths : List String)
    (p : String) :
    ((∃ ps, (seqName p, ps) ∈ sceneDict e paths ∧ p ∈ ps) ↔
      (p ∈ paths ∧ isExcluded e p = false))
    ∧ (∀ k ps, (k, ps) ∈ sceneDict e paths → ∀ x ∈ ps, seqName x = k)
    ∧ (∀ x : String, 4 ≤ (pathSegs x).length →
        seqName x = (pathSegs x).reverse.getD 3 "") := by
  refine ⟨?_, ?_, ?_⟩
  · have hmem : p ∈ groupVals (sceneDict e paths) ↔
        p ∈ paths.filter (fun x => !isExcluded e x) :=
      (sceneDict_perm_filter e paths).mem_iff
    constructor
    · rintro ⟨ps, hps, hpps⟩
      have h1 : p ∈ groupVals (sceneDict e paths) :=
        List.mem_flatten.mpr
          ⟨ps, List.mem_map_of_mem Prod.snd hps, hpps⟩
      rcases List.mem_filter.mp (hmem.mp h1) with ⟨hmem2, hex⟩
      exact ⟨hmem2, by simpa using hex⟩
    · rintro ⟨hin, hex⟩
      have h2 : p ∈ paths.filter (fun x => !isExcluded e x) :=
        List.mem_filter.mpr ⟨hin, by simp [hex]⟩
      obtain ⟨l, hl, hpl⟩ := List.mem_flatten.mp (hmem.mpr h2)
      obtain ⟨gq, hgq, rfl⟩ := List.mem_map.mp hl
      have hkey := sceneDict_grouped e paths gq hgq p hpl
      refine ⟨gq.2, ?_, hpl⟩
      rw [hkey]
      simpa using hgq
  · intro k ps hk x hx
    exact sceneDict_grouped e paths (k, ps) hk x hx
  · intro x hlen
    have hpos : (pathSegs x).length - 4 < (pathSegs x).length := by omega
    have h3 : 3 < (pathSegs x).reverse.length := by
      rw [List.length_reverse]
      omega
    simp only [seqName]
    rw [List.getD_eq_getElem _ _ hpos, List.getD_eq_getElem _ _ h3,
      List.getElem_reverse]
    congr 1

/-- Witness for C8: the sequence name of a five-segment path is its
fourth segment from the end. -/
theorem exclusion_and_grouping_example :
    seqName "root/20180807_145028/lidar/cam_front_center/file.npz" =
      (pathSegs
        "root/20180807_145028/lidar/cam_front_center/file.npz").reverse.getD
        3 "" :=
  (exclusion_and_grouping ⟨[], []⟩ [] "").2.2
    "root/20180807_145028/lidar/cam_front_center/file.npz" (by decide)

end A2D2


